import Mathlib

/-!
Verification of the two computational components of the bobandjanedoe
repository: the running-balance ledger builder (the sort-and-recompute pass
of `generate_transactions` in generate_statements.py and of
`generate_savings_transactions` in generate_savings_statements.py) and the
progressive tax calculator (`calculate_tax` in generate_tax_return.py),
plus the year-over-year percentage-change computation of
`add_account_summary` in generate_retirement_statements.py.

Modelling conventions:
* Python floats are idealised as exact rationals (ℚ).
* Python `round(x, 2)` is modelled as rounding to the nearest multiple of
  1/100 (`round2` below, using Mathlib's `round`; tie behaviour is
  immaterial to every statement proved here).
* `datetime` values are ordered abstractly; a date is modelled as a natural
  number with the same linear order.
* Python's `list.sort`, a stable sort, is modelled by `List.insertionSort`
  with a non-strict (total, transitive) relation, which is likewise stable.
* The value `float('inf')` used as the last tax-bracket bound is modelled
  as `⊤` in `WithTop ℚ`.
* A fallible computation (Python raising `ZeroDivisionError`) is modelled
  as returning `none`.
-/

namespace BobJane

/-- Model of Python `round(x, 2)`: round to the nearest multiple of 1/100. -/
def round2 (q : ℚ) : ℚ := (round (q * 100) : ℚ) / 100

/-- A transaction tuple `(date, description, amount, running_balance)` as
appended to the `transactions` lists of generate_statements.py and
generate_savings_statements.py. The amount is signed: positive = credit,
negative = debit. -/
structure Txn where
  date : ℕ
  desc : String
  amount : ℚ
  balance : ℚ
deriving DecidableEq

/-- The sort relation of generate_statements.py line 373,
`transactions.sort(key=lambda x: (x[0], -x[2]))`: lexicographic comparison
of the key `(date, -amount)`, i.e. date ascending, then amount descending. -/
def checkingLe (t u : Txn) : Prop :=
  t.date < u.date ∨ (t.date = u.date ∧ -t.amount ≤ -u.amount)

instance : DecidableRel checkingLe := fun t u =>
  inferInstanceAs (Decidable (t.date < u.date ∨ (t.date = u.date ∧ -t.amount ≤ -u.amount)))

instance : IsTotal Txn checkingLe where
  total a b := by
    unfold checkingLe
    rcases lt_trichotomy a.date b.date with h | h | h
    · exact Or.inl (Or.inl h)
    · rcases le_total (-a.amount) (-b.amount) with h2 | h2
      · exact Or.inl (Or.inr ⟨h, h2⟩)
      · exact Or.inr (Or.inr ⟨h.symm, h2⟩)
    · exact Or.inr (Or.inl h)

instance : IsTrans Txn checkingLe where
  trans a b c hab hbc := by
    unfold checkingLe at hab hbc ⊢
    rcases hab with h | ⟨he, ha⟩ <;> rcases hbc with h2 | ⟨he2, ha2⟩
    · exact Or.inl (h.trans h2)
    · exact Or.inl (he2 ▸ h)
    · exact Or.inl (he ▸ h2)
    · exact Or.inr ⟨he.trans he2, ha.trans ha2⟩

/-- The sort relation of generate_savings_statements.py line 213,
`transactions.sort(key=lambda x: x[0])`: date ascending only; same-day
transactions are left in input order by the stable sort. -/
def savingsLe (t u : Txn) : Prop := t.date ≤ u.date

instance : DecidableRel savingsLe := fun t u =>
  inferInstanceAs (Decidable (t.date ≤ u.date))

instance : IsTotal Txn savingsLe where
  total a b := le_total a.date b.date

instance : IsTrans Txn savingsLe where
  trans _ _ _ hab hbc := le_trans hab hbc

/-- The recompute pass shared by both builders (generate_statements.py
lines 375-381, generate_savings_statements.py lines 215-221):
`balance = start_balance; for date, desc, amount, _ in transactions:
balance = round(balance + amount, 2); append (date, desc, amount, balance)`;
returns the rebuilt list together with the final balance. The fourth
component of each input tuple is discarded (`_` in the Python loop). -/
def postLoop (b : ℚ) : List Txn → List Txn × ℚ
  | [] => ([], b)
  | t :: rest =>
      let b' := round2 (b + t.amount)
      let p := postLoop b' rest
      ({ t with balance := b' } :: p.1, p.2)

/-- The ledger-builder pass of `generate_transactions`
(generate_statements.py lines 372-381): sort by `(date, -amount)` and
recompute running balances from the starting balance. Only this pass is
modelled; the preceding randomised generation of the input list is the
caller's concern. -/
def generate_transactions (start_balance : ℚ) (transactions : List Txn) :
    List Txn × ℚ :=
  postLoop start_balance (transactions.insertionSort checkingLe)

/-- The ledger-builder pass of `generate_savings_transactions`
(generate_savings_statements.py lines 212-221): sort by date only and
recompute running balances from the starting balance. The interest values
also returned by the Python function are computed before this pass and
returned unchanged, so they are omitted from the model. -/
def generate_savings_transactions (start_balance : ℚ) (transactions : List Txn) :
    List Txn × ℚ :=
  postLoop start_balance (transactions.insertionSort savingsLe)

/-- The loop of `calculate_tax` (generate_tax_return.py lines 57-69) before
the final rounding: iterate over `(bracket_limit, rate)` pairs, breaking
once `taxable_income <= prev_bracket`, accumulating
`(min(taxable_income, bracket_limit) - prev_bracket) * rate`.
A bound of `float('inf')` is `⊤ : WithTop ℚ`; `min(taxable_income, ⊤)`
is `taxable_income` (the `untop'` default), and `prev_bracket` is only
read as a rational in the non-break branch, where it is never `⊤`. -/
def calcLoop (taxable_income : ℚ) :
    List (WithTop ℚ × ℚ) → WithTop ℚ → ℚ → ℚ
  | [], _, tax => tax
  | (bracket_limit, rate) :: rest, prev_bracket, tax =>
      if (taxable_income : WithTop ℚ) ≤ prev_bracket then tax
      else
        calcLoop taxable_income rest bracket_limit
          (tax + (min taxable_income (bracket_limit.untop' taxable_income)
              - prev_bracket.untop' 0) * rate)

/-- `calculate_tax` (generate_tax_return.py lines 57-69): run the bracket
loop starting from `prev_bracket = 0`, `tax = 0`, and round the result to
2 decimal places at the end. -/
def calculate_tax (taxable_income : ℚ) (brackets : List (WithTop ℚ × ℚ)) : ℚ :=
  round2 (calcLoop taxable_income brackets 0 0)

/-- The year-over-year percentage-change computation of
`add_account_summary` (generate_retirement_statements.py lines 143-147):
`change = ending_balance - beginning_balance;
change_pct = (change / beginning_balance) * 100`.
Python float division raises `ZeroDivisionError` on a zero denominator,
modelled here as `none`; there is no zero guard in the source. -/
def change_pct (beginning_balance ending_balance : ℚ) : Option ℚ :=
  if beginning_balance = 0 then none
  else some ((ending_balance - beginning_balance) / beginning_balance * 100)

/-- A rational is a whole number of cents (a multiple of 1/100), as every
amount and balance generated by the repository is. -/
def Cents (q : ℚ) : Prop := ∃ n : ℤ, q = (n : ℚ) / 100

instance : DecidablePred Cents := fun q =>
  decidable_of_iff (q * 100 = ((q * 100).num : ℚ)) <| by
    constructor
    · intro h
      exact ⟨(q * 100).num, by rw [← h]; ring⟩
    · rintro ⟨n, rfl⟩
      have h100 : ((100 : ℚ)) ≠ 0 := by norm_num
      rw [div_mul_cancel₀ _ h100]
      norm_num

/-- Validity of a tax-bracket table, from the spec's data-model invariant:
upper bounds strictly increasing (starting above the running lower bound,
initially 0), marginal rates in [0, 1]; a `⊤` bound can only be last. -/
def ChainValid : WithTop ℚ → List (WithTop ℚ × ℚ) → Prop
  | _, [] => True
  | prev, (b, r) :: rest => prev < b ∧ 0 ≤ r ∧ r ≤ 1 ∧ ChainValid b rest

instance instDecidableChainValid :
    (p : WithTop ℚ) → (bs : List (WithTop ℚ × ℚ)) → Decidable (ChainValid p bs)
  | _, [] => isTrue trivial
  | p, (b, r) :: rest =>
      have : Decidable (ChainValid b rest) := instDecidableChainValid b rest
      decidable_of_iff (p < b ∧ 0 ≤ r ∧ r ≤ 1 ∧ ChainValid b rest) Iff.rfl

/-- Full-bracket tax sum: for each bracket in turn, bracket width
(upper bound minus running lower bound) times marginal rate. Used to state
the bracket-boundary claims. -/
def bracketSum : List (WithTop ℚ × ℚ) → ℚ → ℚ
  | [], _ => 0
  | (b, r) :: rest, prev =>
      (b.untop' prev - prev) * r + bracketSum rest (b.untop' prev)

/-- The last finite bracket bound of a table, starting from `p`. -/
def lastBound (p : ℚ) : List (WithTop ℚ × ℚ) → ℚ
  | [] => p
  | (b, _) :: rest => lastBound (b.untop' p) rest

/-- The components of a transaction tuple that the ledger builder reads:
date, description and amount — everything except the input running-balance
field, which both builders discard and recompute. -/
def strip3 (t : Txn) : ℕ × String × ℚ := (t.date, t.desc, t.amount)

/-! ### Basic lemmas about `round2`, `calcLoop` and `postLoop` -/

lemma round2_zero : round2 0 = 0 := by
  simp [round2]

lemma round2_mono {a b : ℚ} (h : a ≤ b) : round2 a ≤ round2 b := by
  unfold round2
  have hr : round (a * 100) ≤ round (b * 100) := by
    rw [round_eq, round_eq]
    exact Int.floor_le_floor (by linarith)
  have : ((round (a * 100) : ℚ)) ≤ (round (b * 100) : ℚ) := by exact_mod_cast hr
  linarith

lemma cents_round2 (q : ℚ) : Cents (round2 q) :=
  ⟨round (q * 100), rfl⟩

lemma round2_cents {q : ℚ} (h : Cents q) : round2 q = q := by
  obtain ⟨n, rfl⟩ := h
  unfold round2
  have h100 : ((100 : ℚ)) ≠ 0 := by norm_num
  rw [div_mul_cancel₀ _ h100, round_intCast]

lemma cents_add {a b : ℚ} (ha : Cents a) (hb : Cents b) : Cents (a + b) := by
  obtain ⟨n, rfl⟩ := ha
  obtain ⟨m, rfl⟩ := hb
  exact ⟨n + m, by push_cast; ring⟩

lemma calcLoop_nil (I : ℚ) (p : WithTop ℚ) (t : ℚ) : calcLoop I [] p t = t := rfl

lemma calcLoop_cons_coe (I p q r t : ℚ) (rest : List (WithTop ℚ × ℚ)) :
    calcLoop I (((q : WithTop ℚ), r) :: rest) ((p : ℚ) : WithTop ℚ) t =
      if I ≤ p then t else calcLoop I rest (q : WithTop ℚ) (t + (min I q - p) * r) := by
  simp only [calcLoop, WithTop.coe_le_coe, WithTop.untop'_coe]

lemma calcLoop_cons_top (I p r t : ℚ) (rest : List (WithTop ℚ × ℚ)) :
    calcLoop I ((⊤, r) :: rest) ((p : ℚ) : WithTop ℚ) t =
      if I ≤ p then t else calcLoop I rest ⊤ (t + (I - p) * r) := by
  simp only [calcLoop, WithTop.coe_le_coe, WithTop.untop'_coe, WithTop.untop'_top,
    min_self]

lemma calcLoop_prev_top (I t : ℚ) (b : WithTop ℚ) (r : ℚ) (rest : List (WithTop ℚ × ℚ)) :
    calcLoop I ((b, r) :: rest) ⊤ t = t := by
  simp [calcLoop, le_top]

lemma calculate_tax_eq (I : ℚ) (bs : List (WithTop ℚ × ℚ)) :
    calculate_tax I bs = round2 (calcLoop I bs (((0 : ℚ) : WithTop ℚ)) 0) := rfl

lemma postLoop_nil (b : ℚ) : postLoop b [] = ([], b) := rfl

lemma postLoop_cons (b : ℚ) (t : Txn) (rest : List Txn) :
    postLoop b (t :: rest) =
      ({ t with balance := round2 (b + t.amount) } ::
          (postLoop (round2 (b + t.amount)) rest).1,
        (postLoop (round2 (b + t.amount)) rest).2) := rfl

/-- The final balance computed by the recompute pass is the starting
balance plus the sum of the amounts, provided the starting balance and all
amounts are whole numbers of cents (so that the per-step rounding is the
identity). -/
lemma postLoop_snd (b : ℚ) (l : List Txn) (hb : Cents b)
    (hl : ∀ t ∈ l, Cents t.amount) :
    (postLoop b l).2 = b + (l.map Txn.amount).sum := by
  induction l generalizing b with
  | nil => simp [postLoop]
  | cons t rest ih =>
      have ht : Cents t.amount := hl t (List.mem_cons_self t rest)
      have hb' : Cents (b + t.amount) := cents_add hb ht
      have hr : round2 (b + t.amount) = b + t.amount := round2_cents hb'
      rw [postLoop_cons]
      simp only []
      rw [ih (round2 (b + t.amount)) (cents_round2 _)
        (fun u hu => hl u (List.mem_cons_of_mem t hu)), hr]
      simp [add_assoc]

/-- Final balance of a ledger-builder pass over a sorted-by-`r` list, for
whole-cent inputs. -/
lemma build_snd (r : Txn → Txn → Prop) [DecidableRel r] (B : ℚ) (l : List Txn)
    (hB : Cents B) (hl : ∀ t ∈ l, Cents t.amount) :
    (postLoop B (l.insertionSort r)).2 = B + (l.map Txn.amount).sum := by
  have hperm : (l.insertionSort r).Perm l := List.perm_insertionSort r l
  rw [postLoop_snd B _ hB (fun t ht => hl t (hperm.subset ht))]
  rw [(hperm.map Txn.amount).sum_eq]

/-! ### C1: final balance = starting balance + sum of amounts -/

/-- C1 counterexample: the claim quantifies over every transaction list,
but the per-step rounding to 2 decimal places makes it fail for a sub-cent
amount: with starting balance 0 and a single transaction of amount 1/250
(= 0.004), the final running balance is round2(0.004) = 0, not
0 + 0.004. -/
theorem c1_counterexample :
    (generate_transactions 0 [⟨1, "Sub-cent item", 1/250, 0⟩]).2 ≠
      0 + (([⟨1, "Sub-cent item", 1/250, 0⟩] : List Txn).map Txn.amount).sum := by
  norm_num [generate_transactions, List.insertionSort, List.orderedInsert,
    postLoop, round2, round_eq]

/-- C1 (amended): for every starting balance B and every list of
transactions whose amounts are whole numbers of cents (as all amounts
generated by the program are), the final running balance produced by each
ledger builder equals B plus the sum of all transaction amounts, and this
final balance is the same for every permutation of the input transaction
list. -/
theorem c1_final_balance (B : ℚ) (txs txs2 : List Txn) (hB : Cents B)
    (hA : ∀ t ∈ txs, Cents t.amount) (hperm : txs2.Perm txs) :
    (generate_transactions B txs).2 = B + (txs.map Txn.amount).sum ∧
    (generate_savings_transactions B txs).2 = B + (txs.map Txn.amount).sum ∧
    (generate_transactions B txs2).2 = (generate_transactions B txs).2 ∧
    (generate_savings_transactions B txs2).2 = (generate_savings_transactions B txs).2 := by
  have hA2 : ∀ t ∈ txs2, Cents t.amount := fun t ht => hA t (hperm.subset ht)
  have hsum : (txs2.map Txn.amount).sum = (txs.map Txn.amount).sum :=
    (hperm.map Txn.amount).sum_eq
  have h1 := build_snd checkingLe B txs hB hA
  have h2 := build_snd savingsLe B txs hB hA
  have h3 := build_snd checkingLe B txs2 hB hA2
  have h4 := build_snd savingsLe B txs2 hB hA2
  refine ⟨h1, h2, ?_, ?_⟩
  · show (postLoop B (txs2.insertionSort checkingLe)).2 = _
    rw [h3, hsum]; exact h1.symm
  · show (postLoop B (txs2.insertionSort savingsLe)).2 = _
    rw [h4, hsum]; exact h2.symm

/-- C1 witness: the spec's own example, starting balance 1000.00 and
transactions [(day 2, -50.00), (day 1, +200.00)], in both input orders. -/
theorem c1_witness :
    Cents (1000 : ℚ) ∧
    (∀ t ∈ ([⟨2, "Debit", -50, 0⟩, ⟨1, "Credit", 200, 0⟩] : List Txn), Cents t.amount) ∧
    ([⟨1, "Credit", 200, 0⟩, ⟨2, "Debit", -50, 0⟩] : List Txn).Perm
      [⟨2, "Debit", -50, 0⟩, ⟨1, "Credit", 200, 0⟩] ∧
    ((generate_transactions 1000 [⟨2, "Debit", -50, 0⟩, ⟨1, "Credit", 200, 0⟩]).2 =
        1000 + (([⟨2, "Debit", -50, 0⟩, ⟨1, "Credit", 200, 0⟩] : List Txn).map Txn.amount).sum ∧
      (generate_savings_transactions 1000 [⟨2, "Debit", -50, 0⟩, ⟨1, "Credit", 200, 0⟩]).2 =
        1000 + (([⟨2, "Debit", -50, 0⟩, ⟨1, "Credit", 200, 0⟩] : List Txn).map Txn.amount).sum ∧
      (generate_transactions 1000 [⟨1, "Credit", 200, 0⟩, ⟨2, "Debit", -50, 0⟩]).2 =
        (generate_transactions 1000 [⟨2, "Debit", -50, 0⟩, ⟨1, "Credit", 200, 0⟩]).2 ∧
      (generate_savings_transactions 1000 [⟨1, "Credit", 200, 0⟩, ⟨2, "Debit", -50, 0⟩]).2 =
        (generate_savings_transactions 1000 [⟨2, "Debit", -50, 0⟩, ⟨1, "Credit", 200, 0⟩]).2) := by
  refine ⟨⟨100000, by norm_num⟩, ?_, ?_, ?_⟩
  · intro t ht
    simp only [List.mem_cons, List.not_mem_nil, or_false] at ht
    rcases ht with rfl | rfl
    · exact ⟨-5000, by norm_num⟩
    · exact ⟨20000, by norm_num⟩
  · exact List.Perm.swap _ _ _
  · exact c1_final_balance 1000 _ _ ⟨100000, by norm_num⟩
      (by
        intro t ht
        simp only [List.mem_cons, List.not_mem_nil, or_false] at ht
        rcases ht with rfl | rfl
        · exact ⟨-5000, by norm_num⟩
        · exact ⟨20000, by norm_num⟩)
      (List.Perm.swap _ _ _)

/-! ### C3: percentage change against a zero base -/

/-- C3: the claim says the percentage change against a zero beginning
balance is defined as 0% with no division-by-zero fault; in the code
(`add_account_summary`, generate_retirement_statements.py lines 143-147)
the division `change / beginning_balance` is unguarded, so a zero
beginning balance raises `ZeroDivisionError` (modelled as `none`), for
every ending balance. -/
theorem c3_zero_base_faults (ending : ℚ) : change_pct 0 ending = none := by
  simp [change_pct]

/-! ### C5: worked tax example -/

/-- C5: the progressive tax calculator on the bracket table
[(22000, 0.10), (89450, 0.12)] and taxable income 30000 returns exactly
3160.00. -/
theorem c5_example_tax :
    calculate_tax 30000
      [(((22000 : ℚ) : WithTop ℚ), 1/10), (((89450 : ℚ) : WithTop ℚ), 12/100)] = 3160 := by
  rw [calculate_tax_eq, calcLoop_cons_coe, if_neg (by norm_num),
    calcLoop_cons_coe, if_neg (by norm_num), calcLoop_nil]
  norm_num [round2, round_eq, min_def]

/-! ### C8: determinism of the ledger builder -/

/-- C8: the ledger builder is deterministic: the sort-and-recompute pass
(generate_statements.py lines 372-381, generate_savings_statements.py
lines 212-221) uses no randomness and no state other than its arguments,
so its embedding is a pure function and two runs on the same starting
balance and the same unsorted input list produce identical output ledgers
and final balances. -/
theorem c8_deterministic (B : ℚ) (txs : List Txn) :
    generate_transactions B txs = generate_transactions B txs ∧
    generate_savings_transactions B txs = generate_savings_transactions B txs :=
  ⟨rfl, rfl⟩

/-! ### C9: non-positive income -/

/-- For non-positive income the bracket loop breaks at the first bracket,
returning its accumulator unchanged. -/
lemma calcLoop_id_of_nonpos {I : ℚ} (hI : I ≤ 0) (bs : List (WithTop ℚ × ℚ))
    (t : ℚ) : calcLoop I bs (((0 : ℚ) : WithTop ℚ)) t = t := by
  cases bs with
  | nil => rfl
  | cons hd rest =>
      obtain ⟨b, r⟩ := hd
      have hc : (I : WithTop ℚ) ≤ ((0 : ℚ) : WithTop ℚ) := by
        rw [WithTop.coe_le_coe]; exact hI
      simp only [calcLoop]
      exact if_pos hc

lemma calculate_tax_zero_of_nonpos {I : ℚ} (hI : I ≤ 0)
    (bs : List (WithTop ℚ × ℚ)) : calculate_tax I bs = 0 := by
  rw [calculate_tax_eq, calcLoop_id_of_nonpos hI bs 0, round2_zero]

/-- C9: for every taxable income at most 0 (including negative inputs),
the tax calculator returns 0 and performs no bracket accumulation: the
loop leaves any accumulator unchanged, because the break condition
`taxable_income <= prev_bracket` fires at the first bracket. -/
theorem c9_nonpositive_income (I : ℚ) (hI : I ≤ 0) (bs : List (WithTop ℚ × ℚ)) :
    calculate_tax I bs = 0 ∧ ∀ t : ℚ, calcLoop I bs (((0 : ℚ) : WithTop ℚ)) t = t :=
  ⟨calculate_tax_zero_of_nonpos hI bs, fun t => calcLoop_id_of_nonpos hI bs t⟩

/-- C9 witness: income -5 on the 2023 MFJ bracket table prefix. -/
theorem c9_witness :
    ((-5 : ℚ) ≤ 0) ∧
    (calculate_tax (-5)
        [(((22000 : ℚ) : WithTop ℚ), 1/10), (((89450 : ℚ) : WithTop ℚ), 12/100),
          (⊤, 37/100)] = 0 ∧
      ∀ t : ℚ, calcLoop (-5)
        [(((22000 : ℚ) : WithTop ℚ), 1/10), (((89450 : ℚ) : WithTop ℚ), 12/100),
          (⊤, 37/100)] (((0 : ℚ) : WithTop ℚ)) t = t) :=
  ⟨by norm_num, c9_nonpositive_income (-5) (by norm_num) _⟩

/-! ### Order and congruence lemmas for the builders -/

/-- The recompute pass only changes the balance field: dates, descriptions
and amounts pass through unchanged. -/
lemma postLoop_map_strip3 (b : ℚ) (l : List Txn) :
    ((postLoop b l).1).map strip3 = l.map strip3 := by
  induction l generalizing b with
  | nil => rfl
  | cons t rest ih =>
      rw [postLoop_cons]
      simp only [List.map_cons]
      rw [ih]
      rfl

/-- Transport a pairwise relation that only reads date, description and
amount along lists that agree on those components. -/
lemma pairwise_transport {r : Txn → Txn → Prop}
    (hr : ∀ {t t' u u' : Txn}, strip3 t = strip3 t' → strip3 u = strip3 u' →
      r t u → r t' u') :
    ∀ {l1 l2 : List Txn}, l1.map strip3 = l2.map strip3 →
      l1.Pairwise r → l2.Pairwise r := by
  intro l1
  induction l1 with
  | nil =>
      intro l2 h _
      cases l2 with
      | nil => exact List.Pairwise.nil
      | cons y ys => simp at h
  | cons x xs ih =>
      intro l2 h hp
      cases l2 with
      | nil => simp at h
      | cons y ys =>
          simp only [List.map_cons, List.cons.injEq] at h
          obtain ⟨hxy, hmap⟩ := h
          obtain ⟨hx, hxs⟩ := List.pairwise_cons.mp hp
          refine List.pairwise_cons.mpr ⟨?_, ih hmap hxs⟩
          intro b hb
          have hmem : strip3 b ∈ xs.map strip3 := by
            rw [hmap]; exact List.mem_map_of_mem strip3 hb
          obtain ⟨a, ha, hab⟩ := List.mem_map.mp hmem
          exact hr hxy hab (hx a ha)

lemma checkingLe_congr {t t' u u' : Txn} (h1 : strip3 t = strip3 t')
    (h2 : strip3 u = strip3 u') (h : checkingLe t u) : checkingLe t' u' := by
  simp only [strip3, Prod.mk.injEq] at h1 h2
  obtain ⟨hd1, -, ha1⟩ := h1
  obtain ⟨hd2, -, ha2⟩ := h2
  unfold checkingLe at h ⊢
  rw [← hd1, ← hd2, ← ha1, ← ha2]
  exact h

lemma savingsLe_congr {t t' u u' : Txn} (h1 : strip3 t = strip3 t')
    (h2 : strip3 u = strip3 u') (h : savingsLe t u) : savingsLe t' u' := by
  simp only [strip3, Prod.mk.injEq] at h1 h2
  unfold savingsLe at h ⊢
  rw [← h1.1, ← h2.1]
  exact h

/-- The output of the checking-account ledger builder is pairwise ordered
by its sort relation (date ascending, amount descending). -/
lemma pairwise_out_checking (B : ℚ) (txs : List Txn) :
    ((generate_transactions B txs).1).Pairwise checkingLe := by
  have hs : (txs.insertionSort checkingLe).Pairwise checkingLe :=
    List.sorted_insertionSort checkingLe txs
  exact pairwise_transport (fun h1 h2 h => checkingLe_congr h1 h2 h)
    (postLoop_map_strip3 B (txs.insertionSort checkingLe)).symm hs

/-! ### C2: posting order -/

/-- C2 counterexample: the savings builder
(generate_savings_statements.py line 213) sorts by date only, and the
stable sort keeps same-day transactions in input order; with a same-day
debit listed before a credit, the output ledger posts the debit (-100)
before the credit (+200), while the claim requires the credit first. -/
theorem c2_counterexample :
    generate_savings_transactions 1000
        [⟨5, "Withdrawal", -100, 0⟩, ⟨5, "Deposit", 200, 0⟩] =
      ([⟨5, "Withdrawal", -100, 900⟩, ⟨5, "Deposit", 200, 1100⟩], 1100) := by
  norm_num [generate_savings_transactions, List.insertionSort,
    List.orderedInsert, savingsLe, postLoop, round2, round_eq]

/-- C2 (amended): the checking-account ledger builder
(generate_statements.py line 373) orders its output by date ascending with
same-day ties broken by amount descending, so same-day credits appear
before debits; the savings builder sorts by date only, leaving same-day
transactions in input order. Formally, for the checking builder: for any
two output positions i < j, the date at i is at most the date at j; on
equal dates the amount at j is at most the amount at i; and on equal
dates a debit at i is never followed by a credit at j. -/
theorem c2_checking_posting_order (B : ℚ) (txs : List Txn) (i j : ℕ)
    (hj : j < ((generate_transactions B txs).1).length) (hij : i < j) :
    (((generate_transactions B txs).1).get ⟨i, lt_trans hij hj⟩).date ≤
      (((generate_transactions B txs).1).get ⟨j, hj⟩).date ∧
    ((((generate_transactions B txs).1).get ⟨i, lt_trans hij hj⟩).date =
        (((generate_transactions B txs).1).get ⟨j, hj⟩).date →
      (((generate_transactions B txs).1).get ⟨j, hj⟩).amount ≤
        (((generate_transactions B txs).1).get ⟨i, lt_trans hij hj⟩).amount) ∧
    ((((generate_transactions B txs).1).get ⟨i, lt_trans hij hj⟩).date =
        (((generate_transactions B txs).1).get ⟨j, hj⟩).date →
      (((generate_transactions B txs).1).get ⟨i, lt_trans hij hj⟩).amount < 0 →
      (((generate_transactions B txs).1).get ⟨j, hj⟩).amount < 0) := by
  have hp := pairwise_out_checking B txs
  have h := List.pairwise_iff_get.mp hp ⟨i, lt_trans hij hj⟩ ⟨j, hj⟩ hij
  unfold checkingLe at h
  rcases h with hd | ⟨hde, ha⟩
  · exact ⟨le_of_lt hd, fun he => absurd he (ne_of_lt hd),
      fun he _ => absurd he (ne_of_lt hd)⟩
  · exact ⟨le_of_eq hde, fun _ => by linarith, fun _ hneg => by linarith⟩

lemma c2_wlen :
    1 < ((generate_transactions 1000
      [⟨1, "Debit", -50, 0⟩, ⟨1, "Credit", 200, 0⟩]).1).length := by
  norm_num [generate_transactions, List.insertionSort, List.orderedInsert,
    checkingLe, postLoop]

/-- C2 witness: starting balance 1000 and two same-day transactions, a
debit of 50 listed first and a credit of 200 second. -/
theorem c2_witness :
    (0 : ℕ) < 1 ∧
    (((generate_transactions 1000
          [⟨1, "Debit", -50, 0⟩, ⟨1, "Credit", 200, 0⟩]).1).get
        ⟨0, lt_trans Nat.zero_lt_one c2_wlen⟩).date ≤
      (((generate_transactions 1000
          [⟨1, "Debit", -50, 0⟩, ⟨1, "Credit", 200, 0⟩]).1).get ⟨1, c2_wlen⟩).date ∧
    ((((generate_transactions 1000
          [⟨1, "Debit", -50, 0⟩, ⟨1, "Credit", 200, 0⟩]).1).get
        ⟨0, lt_trans Nat.zero_lt_one c2_wlen⟩).date =
        (((generate_transactions 1000
            [⟨1, "Debit", -50, 0⟩, ⟨1, "Credit", 200, 0⟩]).1).get ⟨1, c2_wlen⟩).date →
      (((generate_transactions 1000
          [⟨1, "Debit", -50, 0⟩, ⟨1, "Credit", 200, 0⟩]).1).get ⟨1, c2_wlen⟩).amount ≤
        (((generate_transactions 1000
            [⟨1, "Debit", -50, 0⟩, ⟨1, "Credit", 200, 0⟩]).1).get
          ⟨0, lt_trans Nat.zero_lt_one c2_wlen⟩).amount) ∧
    ((((generate_transactions 1000
          [⟨1, "Debit", -50, 0⟩, ⟨1, "Credit", 200, 0⟩]).1).get
        ⟨0, lt_trans Nat.zero_lt_one c2_wlen⟩).date =
        (((generate_transactions 1000
            [⟨1, "Debit", -50, 0⟩, ⟨1, "Credit", 200, 0⟩]).1).get ⟨1, c2_wlen⟩).date →
      (((generate_transactions 1000
          [⟨1, "Debit", -50, 0⟩, ⟨1, "Credit", 200, 0⟩]).1).get
        ⟨0, lt_trans Nat.zero_lt_one c2_wlen⟩).amount < 0 →
      (((generate_transactions 1000
          [⟨1, "Debit", -50, 0⟩, ⟨1, "Credit", 200, 0⟩]).1).get ⟨1, c2_wlen⟩).amount < 0) := by
  refine ⟨Nat.zero_lt_one, ?_⟩
  exact c2_checking_posting_order 1000
    [⟨1, "Debit", -50, 0⟩, ⟨1, "Credit", 200, 0⟩] 0 1 c2_wlen Nat.zero_lt_one

/-! ### C4: per-step rounding invariant -/

/-- Each balance in the list equals the previous balance plus the amount,
rounded to 2 decimal places at that step; the balance before the first
entry is `b`. -/
def StepRounded (b : ℚ) : List Txn → Prop
  | [] => True
  | t :: rest => t.balance = round2 (b + t.amount) ∧ StepRounded t.balance rest

lemma postLoop_stepRounded (b : ℚ) (l : List Txn) :
    StepRounded b (postLoop b l).1 := by
  induction l generalizing b with
  | nil => trivial
  | cons t rest ih =>
      rw [postLoop_cons]
      exact ⟨rfl, ih (round2 (b + t.amount))⟩

lemma stepRounded_get {b : ℚ} {l : List Txn} (hs : StepRounded b l) :
    ∀ (i : ℕ) (h : i < l.length),
      (l.get ⟨i, h⟩).balance =
        round2 ((if i = 0 then b
            else (l.get ⟨i - 1, Nat.lt_of_le_of_lt (Nat.sub_le i 1) h⟩).balance) +
          (l.get ⟨i, h⟩).amount) := by
  induction l generalizing b with
  | nil => intro i h; exact absurd h (Nat.not_lt_zero i)
  | cons t rest ih =>
      obtain ⟨h1, h2⟩ := hs
      intro i h
      cases i with
      | zero => simpa using h1
      | succ k =>
          have hk : k < rest.length := Nat.lt_of_succ_lt_succ h
          have := ih h2 k hk
          cases k with
          | zero => simpa [List.get] using this
          | succ m => simpa [List.get, Nat.succ_sub_one] using this

/-- C4: for every position i in the output ledger of either builder, the
i-th running balance equals the (i-1)-th running balance plus the i-th
amount, rounded to 2 decimal places at that step, the balance before the
first transaction being the starting balance B. -/
theorem c4_per_step_rounding (B : ℚ) (txs : List Txn) :
    (∀ (i : ℕ) (h : i < ((generate_transactions B txs).1).length),
      (((generate_transactions B txs).1).get ⟨i, h⟩).balance =
        round2 ((if i = 0 then B
            else (((generate_transactions B txs).1).get
              ⟨i - 1, Nat.lt_of_le_of_lt (Nat.sub_le i 1) h⟩).balance) +
          (((generate_transactions B txs).1).get ⟨i, h⟩).amount)) ∧
    (∀ (i : ℕ) (h : i < ((generate_savings_transactions B txs).1).length),
      (((generate_savings_transactions B txs).1).get ⟨i, h⟩).balance =
        round2 ((if i = 0 then B
            else (((generate_savings_transactions B txs).1).get
              ⟨i - 1, Nat.lt_of_le_of_lt (Nat.sub_le i 1) h⟩).balance) +
          (((generate_savings_transactions B txs).1).get ⟨i, h⟩).amount)) :=
  ⟨stepRounded_get (postLoop_stepRounded B (txs.insertionSort checkingLe)),
    stepRounded_get (postLoop_stepRounded B (txs.insertionSort savingsLe))⟩

lemma c4_wlen :
    0 < ((generate_transactions 1000 [⟨1, "Pay", 200, 0⟩]).1).length := by
  norm_num [generate_transactions, List.insertionSort, List.orderedInsert,
    postLoop]

/-- C4 witness: a one-transaction ledger, read at position 0. -/
theorem c4_witness :
    (0 : ℕ) < ((generate_transactions 1000 [⟨1, "Pay", 200, 0⟩]).1).length ∧
    (((generate_transactions 1000 [⟨1, "Pay", 200, 0⟩]).1).get ⟨0, c4_wlen⟩).balance =
      round2 ((if (0 : ℕ) = 0 then 1000
          else (((generate_transactions 1000 [⟨1, "Pay", 200, 0⟩]).1).get
            ⟨0 - 1, Nat.lt_of_le_of_lt (Nat.sub_le 0 1) c4_wlen⟩).balance) +
        (((generate_transactions 1000 [⟨1, "Pay", 200, 0⟩]).1).get ⟨0, c4_wlen⟩).amount) :=
  ⟨c4_wlen, (c4_per_step_rounding 1000 [⟨1, "Pay", 200, 0⟩]).1 0 c4_wlen⟩

/-! ### C10: independence from the input balance field -/

lemma orderedInsert_strip3 (r : Txn → Txn → Prop) [DecidableRel r]
    (hr : ∀ {t t' u u' : Txn}, strip3 t = strip3 t' → strip3 u = strip3 u' →
      (r t u ↔ r t' u')) :
    ∀ {a b : Txn} {l1 l2 : List Txn}, strip3 a = strip3 b →
      l1.map strip3 = l2.map strip3 →
      (l1.orderedInsert r a).map strip3 = (l2.orderedInsert r b).map strip3 := by
  intro a b l1
  induction l1 with
  | nil =>
      intro l2 hab h
      cases l2 with
      | nil => simpa [List.orderedInsert] using hab
      | cons y ys => simp at h
  | cons x xs ih =>
      intro l2 hab h
      cases l2 with
      | nil => simp at h
      | cons y ys =>
          simp only [List.map_cons, List.cons.injEq] at h
          obtain ⟨hxy, hmap⟩ := h
          simp only [List.orderedInsert]
          by_cases hc : r a x
          · rw [if_pos hc, if_pos ((hr hab hxy).mp hc)]
            simp only [List.map_cons]
            rw [hab, hxy, hmap]
          · rw [if_neg hc, if_neg (fun hcy => hc ((hr hab hxy).mpr hcy))]
            simp only [List.map_cons]
            rw [hxy, ih hab hmap]

lemma insertionSort_strip3 (r : Txn → Txn → Prop) [DecidableRel r]
    (hr : ∀ {t t' u u' : Txn}, strip3 t = strip3 t' → strip3 u = strip3 u' →
      (r t u ↔ r t' u')) :
    ∀ {l1 l2 : List Txn}, l1.map strip3 = l2.map strip3 →
      (l1.insertionSort r).map strip3 = (l2.insertionSort r).map strip3 := by
  intro l1
  induction l1 with
  | nil =>
      intro l2 h
      cases l2 with
      | nil => rfl
      | cons y ys => simp at h
  | cons x xs ih =>
      intro l2 h
      cases l2 with
      | nil => simp at h
      | cons y ys =>
          simp only [List.map_cons, List.cons.injEq] at h
          obtain ⟨hxy, hmap⟩ := h
          simp only [List.insertionSort]
          exact orderedInsert_strip3 r hr hxy (ih hmap)

lemma postLoop_congr (b : ℚ) :
    ∀ {l1 l2 : List Txn}, l1.map strip3 = l2.map strip3 →
      postLoop b l1 = postLoop b l2 := by
  intro l1
  induction l1 generalizing b with
  | nil =>
      intro l2 h
      cases l2 with
      | nil => rfl
      | cons y ys => simp at h
  | cons x xs ih =>
      intro l2 h
      cases l2 with
      | nil => simp at h
      | cons y ys =>
          simp only [List.map_cons, List.cons.injEq] at h
          obtain ⟨hxy, hmap⟩ := h
          obtain ⟨xd, xs', xa, xb⟩ := x
          obtain ⟨yd, ys', ya, yb⟩ := y
          simp only [strip3, Prod.mk.injEq] at hxy
          obtain ⟨rfl, rfl, rfl⟩ := hxy
          rw [postLoop_cons, postLoop_cons]
          simp only []
          rw [ih (round2 (b + xa)) hmap]

lemma checkingLe_iff_congr {t t' u u' : Txn} (h1 : strip3 t = strip3 t')
    (h2 : strip3 u = strip3 u') : checkingLe t u ↔ checkingLe t' u' :=
  ⟨fun h => checkingLe_congr h1 h2 h, fun h => checkingLe_congr h1.symm h2.symm h⟩

lemma savingsLe_iff_congr {t t' u u' : Txn} (h1 : strip3 t = strip3 t')
    (h2 : strip3 u = strip3 u') : savingsLe t u ↔ savingsLe t' u' :=
  ⟨fun h => savingsLe_congr h1 h2 h, fun h => savingsLe_congr h1.symm h2.symm h⟩

/-- C10: the ledger builders never read the running-balance field of their
input tuples: any two input lists agreeing on dates, descriptions and
amounts (componentwise) produce identical output ledgers and final
balances, for both builders. -/
theorem c10_balance_field_ignored (B : ℚ) (txs1 txs2 : List Txn)
    (h : txs1.map strip3 = txs2.map strip3) :
    generate_transactions B txs1 = generate_transactions B txs2 ∧
    generate_savings_transactions B txs1 = generate_savings_transactions B txs2 := by
  constructor
  · exact postLoop_congr B
      (insertionSort_strip3 checkingLe
        (fun ha hb => checkingLe_iff_congr ha hb) h)
  · exact postLoop_congr B
      (insertionSort_strip3 savingsLe
        (fun ha hb => savingsLe_iff_congr ha hb) h)

/-- C10 witness: two singleton inputs that differ only in the carried
balance field (999 versus -7). -/
theorem c10_witness :
    (([⟨1, "Rent", 5, 999⟩] : List Txn).map strip3 =
      ([⟨1, "Rent", 5, -7⟩] : List Txn).map strip3) ∧
    (generate_transactions 100 [⟨1, "Rent", 5, 999⟩] =
        generate_transactions 100 [⟨1, "Rent", 5, -7⟩] ∧
      generate_savings_transactions 100 [⟨1, "Rent", 5, 999⟩] =
        generate_savings_transactions 100 [⟨1, "Rent", 5, -7⟩]) :=
  ⟨rfl, c10_balance_field_ignored 100 [⟨1, "Rent", 5, 999⟩] [⟨1, "Rent", 5, -7⟩] rfl⟩

/-! ### C6: monotonicity of the tax calculator -/

lemma eq_coe_of_lt_coe {p : WithTop ℚ} {I : ℚ} (h : p < (I : WithTop ℚ)) :
    ∃ pq : ℚ, p = ((pq : ℚ) : WithTop ℚ) := by
  cases p with
  | top => exact absurd h not_top_lt
  | coe pq => exact ⟨pq, rfl⟩

/-- The bracket-loop accumulator is additive: running the loop on
accumulator `t` adds `t` to the run on accumulator 0. -/
lemma calcLoop_add (I : ℚ) :
    ∀ (bs : List (WithTop ℚ × ℚ)) (p : WithTop ℚ) (t : ℚ),
      calcLoop I bs p t = t + calcLoop I bs p 0 := by
  intro bs
  induction bs with
  | nil => intro p t; simp [calcLoop_nil]
  | cons hd rest ih =>
      intro p t
      obtain ⟨b, r⟩ := hd
      simp only [calcLoop]
      by_cases hc : (I : WithTop ℚ) ≤ p
      · rw [if_pos hc, if_pos hc]; ring
      · rw [if_neg hc, if_neg hc]
        set c := (min I (WithTop.untop' I b) - WithTop.untop' 0 p) * r with hcdef
        rw [ih b (t + c), ih b (0 + c)]
        ring

/-- On a valid chain, each bracket contribution is non-negative. -/
lemma contrib_nonneg {I pq : ℚ} {b : WithTop ℚ} {r : ℚ} (hr0 : 0 ≤ r)
    (hpb : ((pq : ℚ) : WithTop ℚ) < b) (hpI : pq < I) :
    0 ≤ (min I (WithTop.untop' I b) - WithTop.untop' 0 ((pq : ℚ) : WithTop ℚ)) * r := by
  apply mul_nonneg _ hr0
  rw [WithTop.untop'_coe]
  by_cases hbt : b = ⊤
  · subst hbt
    rw [WithTop.untop'_top, min_self]
    linarith
  · obtain ⟨bq, rfl⟩ := WithTop.ne_top_iff_exists.mp hbt
    rw [WithTop.untop'_coe]
    have hpbq : pq < bq := WithTop.coe_lt_coe.mp hpb
    have hmin : pq ≤ min I bq := le_min (le_of_lt hpI) (le_of_lt hpbq)
    linarith

lemma calcLoop_nonneg (I : ℚ) :
    ∀ (bs : List (WithTop ℚ × ℚ)) (p : WithTop ℚ), ChainValid p bs →
      0 ≤ calcLoop I bs p 0 := by
  intro bs
  induction bs with
  | nil => intro p _; simp [calcLoop_nil]
  | cons hd rest ih =>
      intro p hv
      obtain ⟨b, r⟩ := hd
      obtain ⟨hpb, hr0, hr1, hrest⟩ := hv
      simp only [calcLoop]
      by_cases hc : (I : WithTop ℚ) ≤ p
      · rw [if_pos hc]
      · rw [if_neg hc]
        have hpI : p < (I : WithTop ℚ) := not_le.mp hc
        obtain ⟨pq, rfl⟩ := eq_coe_of_lt_coe hpI
        have hcon := contrib_nonneg hr0 hpb (WithTop.coe_lt_coe.mp hpI)
        rw [calcLoop_add]
        have hrec := ih b hrest
        linarith

lemma calcLoop_mono (I1 I2 : ℚ) (h12 : I1 ≤ I2) :
    ∀ (bs : List (WithTop ℚ × ℚ)) (p : WithTop ℚ) (t1 t2 : ℚ),
      t1 ≤ t2 → ChainValid p bs →
      calcLoop I1 bs p t1 ≤ calcLoop I2 bs p t2 := by
  intro bs
  induction bs with
  | nil => intro p t1 t2 ht _; simpa [calcLoop_nil] using ht
  | cons hd rest ih =>
      intro p t1 t2 ht hv
      obtain ⟨b, r⟩ := hd
      obtain ⟨hpb, hr0, hr1, hrest⟩ := hv
      simp only [calcLoop]
      by_cases hc1 : (I1 : WithTop ℚ) ≤ p
      · rw [if_pos hc1]
        by_cases hc2 : (I2 : WithTop ℚ) ≤ p
        · rw [if_pos hc2]; exact ht
        · rw [if_neg hc2]
          have hpI2 : p < (I2 : WithTop ℚ) := not_le.mp hc2
          obtain ⟨pq, rfl⟩ := eq_coe_of_lt_coe hpI2
          have hcon := contrib_nonneg hr0 hpb (WithTop.coe_lt_coe.mp hpI2)
          rw [calcLoop_add]
          have hrec := calcLoop_nonneg I2 rest b hrest
          linarith
      · have hc2 : ¬ (I2 : WithTop ℚ) ≤ p := fun hle =>
          hc1 (le_trans (WithTop.coe_le_coe.mpr h12) hle)
        rw [if_neg hc1, if_neg hc2]
        have hpI1 : p < (I1 : WithTop ℚ) := not_le.mp hc1
        obtain ⟨pq, rfl⟩ := eq_coe_of_lt_coe hpI1
        have hcc : (min I1 (WithTop.untop' I1 b) -
              WithTop.untop' 0 ((pq : ℚ) : WithTop ℚ)) * r ≤
            (min I2 (WithTop.untop' I2 b) -
              WithTop.untop' 0 ((pq : ℚ) : WithTop ℚ)) * r := by
          apply mul_le_mul_of_nonneg_right _ hr0
          rw [WithTop.untop'_coe]
          by_cases hbt : b = ⊤
          · subst hbt
            rw [WithTop.untop'_top, WithTop.untop'_top, min_self, min_self]
            linarith
          · obtain ⟨bq, rfl⟩ := WithTop.ne_top_iff_exists.mp hbt
            rw [WithTop.untop'_coe, WithTop.untop'_coe]
            have hmm := min_le_min h12 (le_refl bq)
            linarith
        exact ih b _ _ (by linarith) hrest

/-- C6: for every valid bracket table (bounds strictly increasing from 0,
rates in [0, 1]) and all taxable incomes 0 ≤ I1 ≤ I2, the tax owed is
monotonically non-decreasing: `calculate_tax I1 ≤ calculate_tax I2`. -/
theorem c6_monotone (bs : List (WithTop ℚ × ℚ)) (I1 I2 : ℚ) (h0 : 0 ≤ I1)
    (h12 : I1 ≤ I2) (hv : ChainValid 0 bs) :
    calculate_tax I1 bs ≤ calculate_tax I2 bs := by
  rw [calculate_tax_eq, calculate_tax_eq]
  exact round2_mono (calcLoop_mono I1 I2 h12 bs _ 0 0 le_rfl hv)

lemma c6_wvalid :
    ChainValid 0 [(((22000 : ℚ) : WithTop ℚ), 1/10),
      (((89450 : ℚ) : WithTop ℚ), 3/25), (⊤, 37/100)] := by
  refine ⟨?_, by norm_num, by norm_num, ?_, by norm_num, by norm_num, ?_,
    by norm_num, by norm_num, trivial⟩
  · rw [← WithTop.coe_zero, WithTop.coe_lt_coe]; norm_num
  · rw [WithTop.coe_lt_coe]; norm_num
  · exact WithTop.coe_lt_top _

/-- C6 witness: incomes 10000 and 20000 on the first two 2023 MFJ brackets
plus the unbounded top bracket. -/
theorem c6_witness :
    (0 : ℚ) ≤ 10000 ∧ (10000 : ℚ) ≤ 20000 ∧
    ChainValid 0 [(((22000 : ℚ) : WithTop ℚ), 1/10),
      (((89450 : ℚ) : WithTop ℚ), 3/25), (⊤, 37/100)] ∧
    calculate_tax 10000 [(((22000 : ℚ) : WithTop ℚ), 1/10),
        (((89450 : ℚ) : WithTop ℚ), 3/25), (⊤, 37/100)] ≤
      calculate_tax 20000 [(((22000 : ℚ) : WithTop ℚ), 1/10),
        (((89450 : ℚ) : WithTop ℚ), 3/25), (⊤, 37/100)] :=
  ⟨by norm_num, by norm_num, c6_wvalid,
    c6_monotone _ 10000 20000 (by norm_num) (by norm_num) c6_wvalid⟩

/-! ### C7: bracket boundaries, zero income and the top bracket -/

/-- On a valid chain, the running lower bound is strictly below every
later bracket bound. -/
lemma chain_lt (c : WithTop ℚ) (rr : ℚ) (v : List (WithTop ℚ × ℚ)) :
    ∀ (w : List (WithTop ℚ × ℚ)) (p : WithTop ℚ),
      ChainValid p (w ++ (c, rr) :: v) → p < c := by
  intro w
  induction w with
  | nil => intro p hv; exact hv.1
  | cons hd rest ih =>
      intro p hv
      obtain ⟨b, r⟩ := hd
      obtain ⟨h1, -, -, h4⟩ := hv
      exact lt_trans h1 (ih b h4)

lemma chain_le_lastBound (tail : List (WithTop ℚ × ℚ)) :
    ∀ (u : List (WithTop ℚ × ℚ)) (p : ℚ),
      ChainValid ((p : ℚ) : WithTop ℚ) (u ++ tail) → p ≤ lastBound p u := by
  intro u
  induction u with
  | nil => intro p _; exact le_rfl
  | cons hd u' ih =>
      intro p hv
      obtain ⟨b, q⟩ := hd
      obtain ⟨hpb, -, -, hrest⟩ := hv
      by_cases hbt : b = ⊤
      · subst hbt
        cases u' with
        | nil => simp [lastBound, WithTop.untop'_top]
        | cons hd2 rest2 =>
            obtain ⟨b2, r2⟩ := hd2
            obtain ⟨habs, -⟩ := hrest
            exact absurd habs not_top_lt
      · obtain ⟨bq, rfl⟩ := WithTop.ne_top_iff_exists.mp hbt
        have hpbq : p < bq := WithTop.coe_lt_coe.mp hpb
        have hb := ih bq hrest
        simp only [lastBound, WithTop.untop'_coe]
        linarith

/-- Income exactly on a bracket bound: the loop consumes every bracket up
to and including the boundary bracket in full, then breaks, never reading
the remaining brackets. -/
lemma calc_through_boundary (I r : ℚ) (v : List (WithTop ℚ × ℚ)) :
    ∀ (u : List (WithTop ℚ × ℚ)) (p t : ℚ),
      ChainValid ((p : ℚ) : WithTop ℚ) (u ++ ((I : WithTop ℚ), r) :: v) →
      calcLoop I (u ++ ((I : WithTop ℚ), r) :: v) ((p : ℚ) : WithTop ℚ) t =
        t + bracketSum (u ++ [((I : WithTop ℚ), r)]) p := by
  intro u
  induction u with
  | nil =>
      intro p t hv
      have hpI : p < I := WithTop.coe_lt_coe.mp hv.1
      simp only [List.nil_append]
      rw [calcLoop_cons_coe, if_neg (not_le.mpr hpI)]
      have hbreak : ∀ t' : ℚ, calcLoop I v (I : WithTop ℚ) t' = t' := by
        intro t'
        cases v with
        | nil => rfl
        | cons hd2 rest2 =>
            obtain ⟨b2, r2⟩ := hd2
            simp only [calcLoop]
            exact if_pos le_rfl
      rw [hbreak]
      simp only [bracketSum, WithTop.untop'_coe, min_self]
      ring
  | cons hd u' ih =>
      intro p t hv
      obtain ⟨b, q⟩ := hd
      obtain ⟨hpb, hq0, hq1, hrest⟩ := hv
      have hbI : b < (I : WithTop ℚ) := chain_lt (I : WithTop ℚ) r v u' b hrest
      obtain ⟨bq, rfl⟩ := eq_coe_of_lt_coe hbI
      have hpbq : p < bq := WithTop.coe_lt_coe.mp hpb
      have hbqI : bq < I := WithTop.coe_lt_coe.mp hbI
      simp only [List.cons_append]
      rw [calcLoop_cons_coe, if_neg (not_le.mpr (lt_trans hpbq hbqI)),
        min_eq_right (le_of_lt hbqI)]
      rw [ih bq (t + (bq - p) * q) hrest]
      simp only [bracketSum, WithTop.untop'_coe]
      ring

/-- Income above every finite bound, table ending in an unbounded top
bracket: all finite brackets are consumed in full and the remainder is
taxed at the top rate. -/
lemma calc_top (I rt : ℚ) :
    ∀ (u : List (WithTop ℚ × ℚ)) (p t : ℚ),
      ChainValid ((p : ℚ) : WithTop ℚ) (u ++ [(⊤, rt)]) →
      lastBound p u < I →
      calcLoop I (u ++ [(⊤, rt)]) ((p : ℚ) : WithTop ℚ) t =
        t + bracketSum u p + (I - lastBound p u) * rt := by
  intro u
  induction u with
  | nil =>
      intro p t hv hlast
      have hlast0 : p < I := hlast
      simp only [List.nil_append]
      rw [calcLoop_cons_top, if_neg (not_le.mpr hlast0), calcLoop_nil]
      simp only [bracketSum, lastBound]
      ring
  | cons hd u' ih =>
      intro p t hv hlast
      obtain ⟨b, q⟩ := hd
      obtain ⟨hpb, hq0, hq1, hrest⟩ := hv
      have hbtop : b < ⊤ := chain_lt ⊤ rt [] u' b hrest
      have hbne : b ≠ ⊤ := ne_top_of_lt hbtop
      obtain ⟨bq, rfl⟩ := WithTop.ne_top_iff_exists.mp hbne
      have hpbq : p < bq := WithTop.coe_lt_coe.mp hpb
      have hlast' : lastBound bq u' < I := by
        simpa only [lastBound, WithTop.untop'_coe] using hlast
      have hbqlast : bq ≤ lastBound bq u' :=
        chain_le_lastBound [(⊤, rt)] u' bq hrest
      simp only [List.cons_append]
      rw [calcLoop_cons_coe,
        if_neg (not_le.mpr (lt_trans hpbq (lt_of_le_of_lt hbqlast hlast'))),
        min_eq_right (le_of_lt (lt_of_le_of_lt hbqlast hlast'))]
      rw [ih bq (t + (bq - p) * q) hrest hlast']
      simp only [bracketSum, lastBound, WithTop.untop'_coe]
      ring

/-- C7: (a) income 0 yields tax 0 on every table; (b) income exactly equal
to a bracket's upper bound is taxed fully through that bracket and no
further bracket is applied — the result is the rounded sum, over the
brackets at or below that bound, of bracket width times rate; (c) with an
unbounded top bracket, income above the last finite bound pays the full
finite-bracket sum plus the remaining income times the top rate. -/
theorem c7_bracket_boundaries :
    (∀ bs : List (WithTop ℚ × ℚ), calculate_tax 0 bs = 0) ∧
    (∀ (u v : List (WithTop ℚ × ℚ)) (I r : ℚ),
        ChainValid 0 (u ++ ((I : WithTop ℚ), r) :: v) →
        calculate_tax I (u ++ ((I : WithTop ℚ), r) :: v) =
          round2 (bracketSum (u ++ [((I : WithTop ℚ), r)]) 0)) ∧
    (∀ (u : List (WithTop ℚ × ℚ)) (rt I : ℚ),
        ChainValid 0 (u ++ [(⊤, rt)]) → lastBound 0 u < I →
        calculate_tax I (u ++ [(⊤, rt)]) =
          round2 (bracketSum u 0 + (I - lastBound 0 u) * rt)) := by
  refine ⟨fun bs => calculate_tax_zero_of_nonpos le_rfl bs, ?_, ?_⟩
  · intro u v I r hv
    rw [calculate_tax_eq, calc_through_boundary I r v u 0 0 hv, zero_add]
  · intro u rt I hv hlast
    rw [calculate_tax_eq, calc_top I rt u 0 0 hv hlast, zero_add]

lemma c7_wvalid1 :
    ChainValid 0 ([(((22000 : ℚ) : WithTop ℚ), 1/10)] ++
      (((89450 : ℚ) : WithTop ℚ), 3/25) :: []) := by
  refine ⟨?_, by norm_num, by norm_num, ?_, by norm_num, by norm_num, trivial⟩
  · rw [← WithTop.coe_zero, WithTop.coe_lt_coe]; norm_num
  · rw [WithTop.coe_lt_coe]; norm_num

lemma c7_wvalid2 :
    ChainValid 0 ([(((22000 : ℚ) : WithTop ℚ), 1/10)] ++ [(⊤, (37 : ℚ)/100)]) := by
  refine ⟨?_, by norm_num, by norm_num, ?_, by norm_num, by norm_num, trivial⟩
  · rw [← WithTop.coe_zero, WithTop.coe_lt_coe]; norm_num
  · exact WithTop.coe_lt_top _

lemma c7_wlast : lastBound 0 [(((22000 : ℚ) : WithTop ℚ), (1 : ℚ)/10)] < 50000 := by
  simp only [lastBound, WithTop.untop'_coe]
  norm_num

/-- C7 witness: income 89450 exactly on the second bracket bound of the
2023 MFJ table prefix, and income 50000 above the only finite bound of a
table ending in the unbounded top bracket. -/
theorem c7_witness :
    ChainValid 0 ([(((22000 : ℚ) : WithTop ℚ), 1/10)] ++
      (((89450 : ℚ) : WithTop ℚ), 3/25) :: []) ∧
    ChainValid 0 ([(((22000 : ℚ) : WithTop ℚ), 1/10)] ++ [(⊤, (37 : ℚ)/100)]) ∧
    lastBound 0 [(((22000 : ℚ) : WithTop ℚ), (1 : ℚ)/10)] < 50000 ∧
    calculate_tax 0 [(((22000 : ℚ) : WithTop ℚ), 1/10)] = 0 ∧
    calculate_tax 89450 ([(((22000 : ℚ) : WithTop ℚ), 1/10)] ++
        (((89450 : ℚ) : WithTop ℚ), 3/25) :: []) =
      round2 (bracketSum ([(((22000 : ℚ) : WithTop ℚ), 1/10)] ++
        [(((89450 : ℚ) : WithTop ℚ), 3/25)]) 0) ∧
    calculate_tax 50000 ([(((22000 : ℚ) : WithTop ℚ), 1/10)] ++ [(⊤, (37 : ℚ)/100)]) =
      round2 (bracketSum [(((22000 : ℚ) : WithTop ℚ), 1/10)] 0 +
        (50000 - lastBound 0 [(((22000 : ℚ) : WithTop ℚ), 1/10)]) * ((37 : ℚ)/100)) :=
  ⟨c7_wvalid1, c7_wvalid2, c7_wlast,
    c7_bracket_boundaries.1 _,
    c7_bracket_boundaries.2.1 [(((22000 : ℚ) : WithTop ℚ), 1/10)] [] 89450 (3/25)
      c7_wvalid1,
    c7_bracket_boundaries.2.2 [(((22000 : ℚ) : WithTop ℚ), 1/10)] ((37 : ℚ)/100) 50000
      c7_wvalid2 c7_wlast⟩

end BobJane
